import Mathlib

/-!
Verification of the 2048 board-transition engine.

This file is a shallow embedding of the class `Game2048` from
`src/game2048.py`.  Boards are `List (List Nat)` (0 = empty cell); the
Python `random` calls are modelled by explicit oracle arguments:
`pick : Nat` selects the index into the empty-cell list built by
`_add_random_tile` (Python's `random.choice` is a uniform index pick),
and `u : ℚ` is the draw of `random.random()` in `[0,1)`, compared
against `0.9` exactly as the source does.
-/

namespace Game2048

/-- The merge loop of `_move_left` (and `_move_up`): walk the compacted
tile list from the left; an equal adjacent pair becomes one doubled tile
(whose value is also the score increment) and both elements are passed;
otherwise the current tile is kept and the walk advances by one.
Returns (merged tiles, score delta). -/
def mergeTiles : List Nat → List Nat × Nat
  | [] => ([], 0)
  | [a] => ([a], 0)
  | a :: b :: rest =>
    if a = b then
      let p := mergeTiles rest
      (a * 2 :: p.1, a * 2 + p.2)
    else
      let p := mergeTiles (b :: rest)
      (a :: p.1, p.2)

/-- The merge loop of `_move_right` (and `_move_down`): the source walks
the compacted list from index `len-1` down to `0`, comparing `tiles[i]`
with `tiles[i-1]` and building `merged_tiles` by insertion at the front.
That right-to-left walk is exactly the left-to-right walk on the
reversed list, with the result reversed back. -/
def mergeTilesRight (tiles : List Nat) : List Nat × Nat :=
  let p := mergeTiles tiles.reverse
  (p.1.reverse, p.2)

/-- One row of `_move_left`: extract non-zero tiles, merge, pad with
zeros on the right to the original length. -/
def slideRowLeft (size : Nat) (row : List Nat) : List Nat :=
  let merged := (mergeTiles (row.filter (fun t => t ≠ 0))).1
  merged ++ List.replicate (size - merged.length) 0

/-- Score increment contributed by one row of `_move_left`. -/
def rowScoreLeft (row : List Nat) : Nat :=
  (mergeTiles (row.filter (fun t => t ≠ 0))).2

/-- One row of `_move_right`: extract non-zero tiles, merge from the
right, pad with zeros on the left. -/
def slideRowRight (size : Nat) (row : List Nat) : List Nat :=
  let merged := (mergeTilesRight (row.filter (fun t => t ≠ 0))).1
  List.replicate (size - merged.length) 0 ++ merged

/-- Score increment contributed by one row of `_move_right`. -/
def rowScoreRight (row : List Nat) : Nat :=
  (mergeTilesRight (row.filter (fun t => t ≠ 0))).2

/-- The mutable state of a `Game2048` object: `size`, `board`, `score`
and the flags `game_over`, `won`, `moved`. -/
structure Game where
  size : Nat
  board : List (List Nat)
  score : Nat
  game_over : Bool
  won : Bool
  moved : Bool
deriving Repr, DecidableEq

/-- Cell read `board[r][c]`, with 0 for out-of-range indices. -/
def getCell (b : List (List Nat)) (r c : Nat) : Nat :=
  (b.getD r []).getD c 0

/-- Column `c` of the board, read top to bottom
(`[board[row][col] for row in range(size)]`). -/
def getColumn (size : Nat) (b : List (List Nat)) (c : Nat) : List Nat :=
  (List.range size).map (fun r => getCell b r c)

/-- The grid after the row loop of `_move_left`. -/
def leftBoard (g : Game) : List (List Nat) :=
  g.board.map (slideRowLeft g.size)

/-- The grid after the row loop of `_move_right`. -/
def rightBoard (g : Game) : List (List Nat) :=
  g.board.map (slideRowRight g.size)

/-- Translation of `_move_left`: each row is slid/merged independently; `moved` is true
iff some row changed; the score deltas of all rows are added to `score`
(the source adds them during merging, before the changed-row check). -/
def moveLeft (g : Game) : Game × Bool :=
  ({ g with
      board := leftBoard g,
      score := g.score + (g.board.map rowScoreLeft).sum },
   decide (leftBoard g ≠ g.board))

/-- Translation of `_move_right`: mirror image of `_move_left`. -/
def moveRight (g : Game) : Game × Bool :=
  ({ g with
      board := rightBoard g,
      score := g.score + (g.board.map rowScoreRight).sum },
   decide (rightBoard g ≠ g.board))

/-- The grid after the column loop of `_move_up`: cell `(r, c)` is entry
`r` of the slid column `c` (`new_col` padded with zeros at the bottom). -/
def upBoard (g : Game) : List (List Nat) :=
  (List.range g.size).map (fun r =>
    (List.range g.size).map (fun c =>
      (slideRowLeft g.size (getColumn g.size g.board c)).getD r 0))

/-- The grid after the column loop of `_move_down` (zeros padded on top). -/
def downBoard (g : Game) : List (List Nat) :=
  (List.range g.size).map (fun r =>
    (List.range g.size).map (fun c =>
      (slideRowRight g.size (getColumn g.size g.board c)).getD r 0))

/-- The per-cell changed scan of `_move_up`/`_move_down`: some cell of
the `size × size` range differs between the new and the old grid. -/
def cellChanged (size : Nat) (newB oldB : List (List Nat)) : Bool :=
  (List.range size).any (fun r => (List.range size).any (fun c =>
    getCell newB r c != getCell oldB r c))

/-- Translation of `_move_up`: each column is slid/merged toward the top independently. -/
def moveUp (g : Game) : Game × Bool :=
  ({ g with
      board := upBoard g,
      score := g.score +
        ((List.range g.size).map (fun c => rowScoreLeft (getColumn g.size g.board c))).sum },
   cellChanged g.size (upBoard g) g.board)

/-- Translation of `_move_down`: each column is slid/merged toward the bottom. -/
def moveDown (g : Game) : Game × Bool :=
  ({ g with
      board := downBoard g,
      score := g.score +
        ((List.range g.size).map (fun c => rowScoreRight (getColumn g.size g.board c))).sum },
   cellChanged g.size (downBoard g) g.board)

/-- Test `2048 in row` for some row of the board. -/
def hasWonTile (b : List (List Nat)) : Bool :=
  b.any (fun row => row.contains 2048)

/-- Test `0 in row` for some row of the board. -/
def hasEmptyCell (b : List (List Nat)) : Bool :=
  b.any (fun row => row.contains 0)

/-- The possible-moves scan of `_check_game_state`: some cell equals its
right neighbor or its bottom neighbor (within bounds). -/
def hasAdjacentEqual (size : Nat) (b : List (List Nat)) : Bool :=
  (List.range size).any (fun r => (List.range size).any (fun c =>
    (decide (c < size - 1) && (getCell b r c == getCell b r (c + 1))) ||
    (decide (r < size - 1) && (getCell b r c == getCell b (r + 1) c))))

/-- Translation of `_check_game_state`: win check first (early return), then empty-cell
check, then adjacent-pair check; only if all fail is `game_over` set. -/
def checkGameState (g : Game) : Game :=
  if hasWonTile g.board then { g with won := true }
  else if hasEmptyCell g.board then g
  else if hasAdjacentEqual g.size g.board then g
  else { g with game_over := true }

/-- The empty-cell comprehension of `_add_random_tile`:
`[(row, col) for row in range(size) for col in range(size) if board[row][col] == 0]`. -/
def emptyCells (size : Nat) (b : List (List Nat)) : List (Nat × Nat) :=
  (List.range size).flatMap (fun r =>
    ((List.range size).filter (fun c => getCell b r c == 0)).map (fun c => (r, c)))

/-- Write value `v` into cell `(r, c)` of the board. -/
def setCell (b : List (List Nat)) (r c v : Nat) : List (List Nat) :=
  b.set r ((b.getD r []).set c v)

/-- Spawn value `2 if random.random() < 0.9 else 4`, with the uniform draw `u`. -/
def tileValue (u : ℚ) : Nat :=
  if u < 9 / 10 then 2 else 4

/-- Translation of `_add_random_tile`: if any empty cell exists, place a tile of value
`tileValue u` on the empty cell selected by the oracle index `pick`
(`random.choice` over the empty-cell list); otherwise do nothing. -/
def addRandomTile (pick : Nat) (u : ℚ) (g : Game) : Game :=
  let empty := emptyCells g.size g.board
  if empty.isEmpty then g
  else
    let rc := empty.getD (pick % empty.length) (0, 0)
    { g with board := setCell g.board rc.1 rc.2 (tileValue u) }

/-- The direction dispatch of `move()`: the four recognized strings run
their `_move_*` helper; anything else falls through with `moved` still
`False`. -/
def dispatchMove (g0 : Game) (direction : String) : Game × Bool :=
  if direction = "left" then moveLeft g0
  else if direction = "right" then moveRight g0
  else if direction = "up" then moveUp g0
  else if direction = "down" then moveDown g0
  else (g0, false)

/-- Translation of `move(direction)`: refuse if the game is over or won; otherwise
dispatch on the direction string (unrecognized strings fall through with
`moved = False`); on an effective move add a random tile and re-check
the game state; return `moved`. -/
def move (pick : Nat) (u : ℚ) (g : Game) (direction : String) : Game × Bool :=
  if g.game_over || g.won then (g, false)
  else
    let step : Game × Bool := dispatchMove { g with moved := false } direction
    let g1 : Game := { step.1 with moved := step.2 }
    if step.2 then (checkGameState (addRandomTile pick u g1), true)
    else (g1, false)

/-- The all-zero `size × size` starting grid. -/
def blankBoard (size : Nat) : List (List Nat) :=
  List.replicate size (List.replicate size 0)

/-- Translation of `__init__(size)`: zero grid, zero score, cleared flags, then two
random tiles (oracles `p1, u1` then `p2, u2`). -/
def initGame (size : Nat) (p1 : Nat) (u1 : ℚ) (p2 : Nat) (u2 : ℚ) : Game :=
  addRandomTile p2 u2 (addRandomTile p1 u1
    { size := size, board := blankBoard size, score := 0,
      game_over := false, won := false, moved := false })

/-- Translation of `reset()`: restore the zero grid, zero score and cleared flags, then
add two random tiles. -/
def resetGame (p1 : Nat) (u1 : ℚ) (p2 : Nat) (u2 : ℚ) (g : Game) : Game :=
  addRandomTile p2 u2 (addRandomTile p1 u1
    { g with
      board := blankBoard g.size, score := 0,
      game_over := false, won := false, moved := false })

/-- The board produced by the slide/merge phase alone, for a recognized
direction (the grid part of `_move_*`, before spawn and state check). -/
def slideBoard (g : Game) (direction : String) : List (List Nat) :=
  if direction = "left" then (moveLeft g).1.board
  else if direction = "right" then (moveRight g).1.board
  else if direction = "up" then (moveUp g).1.board
  else if direction = "down" then (moveDown g).1.board
  else g.board

/-- The board is a `size × size` matrix. -/
def WellFormed (g : Game) : Prop :=
  g.board.length = g.size ∧ ∀ row ∈ g.board, row.length = g.size

/-- A fixed sample in-progress position (rows 0 and 1 compact and merge,
rows 2 and 3 are empty). -/
def sampleGame : Game :=
  { size := 4,
    board := [[2, 2, 2, 2], [2, 2, 4, 4], [0, 0, 0, 0], [0, 0, 0, 0]],
    score := 0, game_over := false, won := false, moved := false }

/-- A fixed position whose `won` flag is set. -/
def wonGame : Game :=
  { size := 4,
    board := [[2048, 2, 0, 0], [0, 0, 0, 0], [0, 0, 0, 0], [0, 0, 0, 0]],
    score := 2048, game_over := false, won := true, moved := true }

/-- A fixed full position with no adjacent equal pair, `game_over` set. -/
def lostGame : Game :=
  { size := 4,
    board := [[2, 4, 2, 4], [4, 2, 4, 2], [2, 4, 2, 4], [4, 2, 4, 2]],
    score := 16, game_over := true, won := false, moved := true }

/-- A fixed in-progress position on which no direction changes the grid
(checkerboard with one empty corner is not needed; this one is full). -/
def stuckGame : Game :=
  { size := 4,
    board := [[2, 4, 2, 4], [4, 2, 4, 2], [2, 4, 2, 4], [4, 2, 4, 2]],
    score := 0, game_over := false, won := false, moved := false }
/-- One entry of a move sequence: the oracle pair and the direction. -/
def runMoves (g : Game) (ms : List (Nat × ℚ × String)) : Game :=
  ms.foldl (fun h m => (move m.1 m.2.1 h m.2.2).1) g
/-- Number of non-zero cells on the board. -/
def nonzeroCount (b : List (List Nat)) : Nat :=
  (b.map (fun row => row.countP (fun t => t ≠ 0))).sum

/-- A board is a `size × size` matrix. -/
def WellFormedB (size : Nat) (b : List (List Nat)) : Prop :=
  b.length = size ∧ ∀ row ∈ b, row.length = size
/-- Predicate: `v` is 0 or a power of two with exponent at least 1 (bounded search,
executable). -/
def validCellB (v : Nat) : Bool :=
  v == 0 || (List.range (v + 1)).any (fun k => decide (k ≠ 0) && v == 2 ^ k)

/-- Every cell of the board is 0 or a power of two that is at least 2. -/
def ValidB (b : List (List Nat)) : Bool :=
  b.all (fun row => row.all validCellB)
/-!
Reference semantics for `get_board`.  The defensive-copy contract is an
aliasing property, so the relevant line
`return [row[:] for row in self.board]` is modelled against a tiny heap:
an arena of row objects in which a board value is a list of references
(arena indices).  `row[:]` allocates a fresh row object with the same
contents; the comprehension returns references to the fresh objects.
-/

/-- Dereference a row object. -/
def derefRow (heap : List (List Nat)) (i : Nat) : List Nat :=
  heap.getD i []

/-- The matrix denoted by a list of row references. -/
def readBoard (heap : List (List Nat)) (refs : List Nat) : List (List Nat) :=
  refs.map (derefRow heap)

/-- Translation of `get_board`: `[row[:] for row in self.board]` — allocate a copy of
every referenced row at the end of the heap and return references to
the fresh copies. -/
def getBoardCopy (heap : List (List Nat)) (refs : List Nat) :
    List (List Nat) × List Nat :=
  (heap ++ readBoard heap refs, List.range' heap.length refs.length 1)

/-- A caller-side mutation `m[r][c] = v` through a list of row
references (out-of-range `r` mutates nothing). -/
def mutateRef (heap : List (List Nat)) (refs : List Nat) (r c v : Nat) :
    List (List Nat) :=
  match refs[r]? with
  | some i => heap.set i ((derefRow heap i).set c v)
  | none => heap

theorem mergeTiles_nil : mergeTiles [] = ([], 0) := rfl

theorem mergeTiles_single (a : Nat) : mergeTiles [a] = ([a], 0) := rfl

theorem mergeTiles_cons_eq (a : Nat) (rest : List Nat) :
    mergeTiles (a :: a :: rest) =
      (a * 2 :: (mergeTiles rest).1, a * 2 + (mergeTiles rest).2) := by
  simp [mergeTiles]

theorem mergeTiles_cons_ne (a b : Nat) (rest : List Nat) (h : a ≠ b) :
    mergeTiles (a :: b :: rest) =
      (a :: (mergeTiles (b :: rest)).1, (mergeTiles (b :: rest)).2) := by
  simp [mergeTiles, h]

theorem mergeTiles_length_le (l : List Nat) :
    (mergeTiles l).1.length ≤ l.length := by
  induction l using mergeTiles.induct with
  | case1 => simp [mergeTiles]
  | case2 a => simp [mergeTiles]
  | case3 a rest ih =>
    rw [mergeTiles_cons_eq]
    simp only [List.length_cons]
    omega
  | case4 a b rest h ih =>
    rw [mergeTiles_cons_ne a b rest h]
    simpa using ih

theorem mergeTiles_length_lt_of_score_pos (l : List Nat)
    (h : 0 < (mergeTiles l).2) : (mergeTiles l).1.length < l.length := by
  induction l using mergeTiles.induct with
  | case1 => simp [mergeTiles] at h
  | case2 a => simp [mergeTiles] at h
  | case3 a rest ih =>
    rw [mergeTiles_cons_eq]
    have := mergeTiles_length_le rest
    simp only [List.length_cons]
    omega
  | case4 a b rest he ih =>
    rw [mergeTiles_cons_ne a b rest he] at h ⊢
    have := ih h
    simp only [List.length_cons] at this ⊢
    omega

theorem mergeTiles_eq_of_length_eq (l : List Nat)
    (h : (mergeTiles l).1.length = l.length) : (mergeTiles l).1 = l := by
  induction l using mergeTiles.induct with
  | case1 => simp [mergeTiles]
  | case2 a => simp [mergeTiles]
  | case3 a rest ih =>
    rw [mergeTiles_cons_eq] at h
    have := mergeTiles_length_le rest
    simp only [List.length_cons] at h
    omega
  | case4 a b rest he ih =>
    rw [mergeTiles_cons_ne a b rest he] at h ⊢
    simp only [List.length_cons] at h
    have h2 : (mergeTiles (b :: rest)).1.length = (b :: rest).length := by
      simp only [List.length_cons]
      omega
    rw [ih h2]

theorem mergeTiles_mem (l : List Nat) (y : Nat) (hy : y ∈ (mergeTiles l).1) :
    y ∈ l ∨ ∃ a ∈ l, y = a * 2 := by
  induction l using mergeTiles.induct with
  | case1 => simp [mergeTiles] at hy
  | case2 a => simp [mergeTiles] at hy; simp [hy]
  | case3 a rest ih =>
    rw [mergeTiles_cons_eq] at hy
    rcases List.mem_cons.mp hy with h | h
    · exact Or.inr ⟨a, by simp, h⟩
    · rcases ih h with h' | ⟨x, hx, hxy⟩
      · exact Or.inl (by simp [h'])
      · exact Or.inr ⟨x, by simp [hx], hxy⟩
  | case4 a b rest he ih =>
    rw [mergeTiles_cons_ne a b rest he] at hy
    rcases List.mem_cons.mp hy with h | h
    · exact Or.inl (by simp [h])
    · rcases ih h with h' | ⟨x, hx, hxy⟩
      · exact Or.inl (List.mem_cons_of_mem a h')
      · exact Or.inr ⟨x, List.mem_cons_of_mem a hx, hxy⟩

theorem mergeTiles_ne_zero (l : List Nat) (hl : ∀ x ∈ l, x ≠ 0) :
    ∀ y ∈ (mergeTiles l).1, y ≠ 0 := by
  intro y hy
  rcases mergeTiles_mem l y hy with h | ⟨a, ha, rfl⟩
  · exact hl y h
  · have := hl a ha
    omega

theorem merged_length_le (row : List Nat) :
    (mergeTiles (row.filter (fun t => t ≠ 0))).1.length ≤ row.length :=
  le_trans (mergeTiles_length_le _) (List.length_filter_le _ _)

theorem slideRowLeft_length (size : Nat) (row : List Nat)
    (h : row.length ≤ size) : (slideRowLeft size row).length = size := by
  have hm : (mergeTiles (row.filter (fun t => t ≠ 0))).1.length ≤ size :=
    le_trans (merged_length_le row) h
  simp only [slideRowLeft, List.length_append, List.length_replicate]
  omega

theorem countP_slideRowLeft (size : Nat) (row : List Nat) :
    (slideRowLeft size row).countP (fun t => t ≠ 0) =
      (mergeTiles (row.filter (fun t => t ≠ 0))).1.length := by
  have hall : ∀ y ∈ (mergeTiles (row.filter (fun t => t ≠ 0))).1, y ≠ 0 := by
    refine mergeTiles_ne_zero _ ?_
    intro x hx
    simpa using (List.mem_filter.mp hx).2
  simp only [slideRowLeft, List.countP_append]
  rw [List.countP_eq_length.mpr (by intro a ha; simpa using hall a ha)]
  have : (List.replicate (size - (mergeTiles (row.filter (fun t => t ≠ 0))).1.length)
      (0 : Nat)).countP (fun t => t ≠ 0) = 0 := by
    rw [List.countP_eq_length_filter, List.filter_replicate]
    simp
  omega

theorem countP_row (row : List Nat) :
    row.countP (fun t => t ≠ 0) = (row.filter (fun t => t ≠ 0)).length := by
  rw [List.countP_eq_length_filter]

/-- A row on which the left slide is the identity contributes no score:
any merge strictly decreases the number of non-zero entries. -/
theorem rowScoreLeft_eq_zero_of_fixed (size : Nat) (row : List Nat)
    (h : slideRowLeft size row = row) : rowScoreLeft row = 0 := by
  by_contra hne
  have hpos : 0 < rowScoreLeft row := Nat.pos_of_ne_zero hne
  have hlt := mergeTiles_length_lt_of_score_pos (row.filter (fun t => t ≠ 0)) hpos
  have hcount : (slideRowLeft size row).countP (fun t => t ≠ 0) =
      row.countP (fun t => t ≠ 0) := by rw [h]
  rw [countP_slideRowLeft, countP_row] at hcount
  omega

/-- A row changed by the left slide contains an empty cell afterwards. -/
theorem slideRowLeft_zero_mem (size : Nat) (row : List Nat)
    (hlen : row.length = size) (hne : slideRowLeft size row ≠ row) :
    (0 : Nat) ∈ slideRowLeft size row := by
  by_cases hfull : (mergeTiles (row.filter (fun t => t ≠ 0))).1.length = size
  · exfalso
    apply hne
    have hml := mergeTiles_length_le (row.filter (fun t => t ≠ 0))
    have hfl := List.length_filter_le (fun t => decide (t ≠ 0)) row
    have h1 : (row.filter (fun t => t ≠ 0)).length = size := by omega
    have h2 : (mergeTiles (row.filter (fun t => t ≠ 0))).1 =
        row.filter (fun t => t ≠ 0) :=
      mergeTiles_eq_of_length_eq _ (by omega)
    have h3 : row.filter (fun t => t ≠ 0) = row :=
      List.filter_eq_self.mpr (List.filter_length_eq_length.mp (by omega))
    show (mergeTiles (row.filter (fun t => t ≠ 0))).1 ++
      List.replicate (size - (mergeTiles (row.filter (fun t => t ≠ 0))).1.length) 0 = row
    rw [hfull, h2, h3]
    simp
  · have hlt : (mergeTiles (row.filter (fun t => t ≠ 0))).1.length < size := by
      have := merged_length_le row
      omega
    show (0 : Nat) ∈ (mergeTiles (row.filter (fun t => t ≠ 0))).1 ++
      List.replicate (size - (mergeTiles (row.filter (fun t => t ≠ 0))).1.length) 0
    refine List.mem_append_right _ ?_
    exact List.mem_replicate.mpr ⟨by omega, rfl⟩

theorem slideRowRight_eq_reverse (size : Nat) (row : List Nat) :
    slideRowRight size row = (slideRowLeft size row.reverse).reverse := by
  simp only [slideRowRight, slideRowLeft, mergeTilesRight, List.filter_reverse,
    List.reverse_append, List.reverse_replicate, List.length_reverse]

theorem rowScoreRight_eq_reverse (row : List Nat) :
    rowScoreRight row = rowScoreLeft row.reverse := by
  simp only [rowScoreRight, rowScoreLeft, mergeTilesRight, List.filter_reverse]

theorem slideRowRight_length (size : Nat) (row : List Nat)
    (h : row.length ≤ size) : (slideRowRight size row).length = size := by
  rw [slideRowRight_eq_reverse, List.length_reverse,
    slideRowLeft_length size _ (by simpa using h)]

theorem rowScoreRight_eq_zero_of_fixed (size : Nat) (row : List Nat)
    (h : slideRowRight size row = row) : rowScoreRight row = 0 := by
  rw [rowScoreRight_eq_reverse]
  apply rowScoreLeft_eq_zero_of_fixed size
  rw [slideRowRight_eq_reverse] at h
  calc slideRowLeft size row.reverse
      = (slideRowLeft size row.reverse).reverse.reverse := by
        rw [List.reverse_reverse]
    _ = row.reverse := by rw [h]

theorem slideRowRight_zero_mem (size : Nat) (row : List Nat)
    (hlen : row.length = size) (hne : slideRowRight size row ≠ row) :
    (0 : Nat) ∈ slideRowRight size row := by
  rw [slideRowRight_eq_reverse]
  rw [List.mem_reverse]
  refine slideRowLeft_zero_mem size row.reverse (by simpa using hlen) ?_
  intro hfix
  apply hne
  rw [slideRowRight_eq_reverse, hfix, List.reverse_reverse]

theorem getD_map_range {α : Type} (n i : Nat) (f : Nat → α) (d : α) (h : i < n) :
    ((List.range n).map f).getD i d = f i := by
  rw [List.getD_eq_getElem _ _ (by simpa)]
  simp

theorem map_range_getD {α : Type} (n : Nat) (l : List α) (d : α)
    (h : l.length = n) : (List.range n).map (fun i => l.getD i d) = l := by
  refine List.ext_getElem (by simp [h]) ?_
  intro i h1 h2
  have hi : i < n := by simpa using h1
  simp only [List.getElem_map, List.getElem_range]
  rw [List.getD_eq_getElem _ _ h2]

theorem moveLeft_board_row (g : Game) (r : Nat) (hr : r < g.board.length) :
    (moveLeft g).1.board.getD r [] = slideRowLeft g.size (g.board.getD r []) := by
  show (g.board.map (slideRowLeft g.size)).getD r [] = _
  rw [List.getD_eq_getElem _ _ (by simpa), List.getD_eq_getElem _ _ hr]
  simp

theorem moveRight_board_row (g : Game) (r : Nat) (hr : r < g.board.length) :
    (moveRight g).1.board.getD r [] = slideRowRight g.size (g.board.getD r []) := by
  show (g.board.map (slideRowRight g.size)).getD r [] = _
  rw [List.getD_eq_getElem _ _ (by simpa), List.getD_eq_getElem _ _ hr]
  simp

theorem getColumn_length (size : Nat) (b : List (List Nat)) (c : Nat) :
    (getColumn size b c).length = size := by
  simp [getColumn]

theorem moveUp_getCell (g : Game) (r c : Nat) (hr : r < g.size) (hc : c < g.size) :
    getCell (moveUp g).1.board r c =
      (slideRowLeft g.size (getColumn g.size g.board c)).getD r 0 := by
  show getCell ((List.range g.size).map (fun r =>
    (List.range g.size).map (fun c =>
      (slideRowLeft g.size (getColumn g.size g.board c)).getD r 0))) r c = _
  unfold getCell
  rw [getD_map_range _ _ _ _ hr, getD_map_range _ _ _ _ hc]

theorem moveDown_getCell (g : Game) (r c : Nat) (hr : r < g.size) (hc : c < g.size) :
    getCell (moveDown g).1.board r c =
      (slideRowRight g.size (getColumn g.size g.board c)).getD r 0 := by
  show getCell ((List.range g.size).map (fun r =>
    (List.range g.size).map (fun c =>
      (slideRowRight g.size (getColumn g.size g.board c)).getD r 0))) r c = _
  unfold getCell
  rw [getD_map_range _ _ _ _ hr, getD_map_range _ _ _ _ hc]

theorem moveUp_column (g : Game) (c : Nat) (hc : c < g.size) :
    getColumn g.size (moveUp g).1.board c =
      slideRowLeft g.size (getColumn g.size g.board c) := by
  have hl : (slideRowLeft g.size (getColumn g.size g.board c)).length = g.size :=
    slideRowLeft_length _ _ (le_of_eq (getColumn_length _ _ _))
  unfold getColumn
  calc (List.range g.size).map (fun r => getCell (moveUp g).1.board r c)
      = (List.range g.size).map
          (fun r => (slideRowLeft g.size (getColumn g.size g.board c)).getD r 0) := by
        refine List.map_congr_left ?_
        intro r hr
        exact moveUp_getCell g r c (by simpa using hr) hc
    _ = slideRowLeft g.size (getColumn g.size g.board c) :=
        map_range_getD _ _ _ hl

theorem moveDown_column (g : Game) (c : Nat) (hc : c < g.size) :
    getColumn g.size (moveDown g).1.board c =
      slideRowRight g.size (getColumn g.size g.board c) := by
  have hl : (slideRowRight g.size (getColumn g.size g.board c)).length = g.size :=
    slideRowRight_length _ _ (le_of_eq (getColumn_length _ _ _))
  unfold getColumn
  calc (List.range g.size).map (fun r => getCell (moveDown g).1.board r c)
      = (List.range g.size).map
          (fun r => (slideRowRight g.size (getColumn g.size g.board c)).getD r 0) := by
        refine List.map_congr_left ?_
        intro r hr
        exact moveDown_getCell g r c (by simpa using hr) hc
    _ = slideRowRight g.size (getColumn g.size g.board c) :=
        map_range_getD _ _ _ hl

theorem mergeTiles_replicate :
    ∀ (n : Nat) (a : Nat),
      (mergeTiles (List.replicate n a)).1 =
        List.replicate (n / 2) (a * 2) ++ (if n % 2 = 1 then [a] else []) ∧
      (mergeTiles (List.replicate n a)).2 = n / 2 * (a * 2)
  | 0, a => by simp [mergeTiles]
  | 1, a => by simp [mergeTiles]
  | (n + 2), a => by
    have ih := mergeTiles_replicate n a
    have hrep : List.replicate (n + 2) a = a :: a :: List.replicate n a := by
      simp [List.replicate_succ]
    rw [hrep, mergeTiles_cons_eq, ih.1]
    refine ⟨?_, ?_⟩
    · have hdiv : (n + 2) / 2 = n / 2 + 1 := by omega
      have hmod : (n + 2) % 2 = n % 2 := by omega
      rw [hdiv, hmod, List.replicate_succ]
      simp
    · have hdiv : (n + 2) / 2 = n / 2 + 1 := by omega
      rw [hdiv, ih.2]
      ring

example : slideRowLeft 4 [2, 2, 2, 2] = [4, 4, 0, 0] := by decide
example : rowScoreLeft [2, 2, 2, 2] = 8 := by decide
example : slideRowLeft 4 [2, 2, 4, 4] = [4, 8, 0, 0] := by decide
example : rowScoreLeft [2, 2, 4, 4] = 12 := by decide
example : slideRowRight 4 [2, 0, 2, 0] = [0, 0, 0, 4] := by decide
example : slideRowLeft 4 [0, 2, 0, 2] = [4, 0, 0, 0] := by decide
example : slideRowRight 4 [2, 4, 8, 8] = [0, 2, 4, 16] := by decide

/-- The right-neighbor / bottom-neighbor scan phrased over cells. -/
theorem hasAdjacentEqual_iff (size : Nat) (b : List (List Nat)) :
    hasAdjacentEqual size b = true ↔
      ∃ r < size, ∃ c < size,
        (c < size - 1 ∧ getCell b r c = getCell b r (c + 1)) ∨
        (r < size - 1 ∧ getCell b r c = getCell b (r + 1) c) := by
  simp only [hasAdjacentEqual, List.any_eq_true, List.mem_range,
    Bool.or_eq_true, Bool.and_eq_true, decide_eq_true_eq, beq_iff_eq]

/-- C1: the slide/merge phase of `move()` processes every line
independently in every direction — each row of the left/right move is
the row transform applied to that row alone, each column of the up/down
move is the same transform applied to that column alone; the merge walk
is pairwise from the source end, doubling each equal adjacent pair and
adding the doubled value to the score, and never re-merges a freshly
merged tile (on a run of `n` equal tiles it produces `n / 2` doubled
tiles plus a possible leftover, never a cascaded quadruple); the
right/down transform reads the line from the opposite end (it is the
mirror of the left transform); `[2,2,2,2]` toward the source end gives
`[4,4,0,0]` with score 8, and `[2,2,4,4]` moved left gives `[4,8,0,0]`
with score 12. -/
theorem move_per_line_merge :
    (∀ g r, r < g.board.length →
      (moveLeft g).1.board.getD r [] = slideRowLeft g.size (g.board.getD r [])) ∧
    (∀ g r, r < g.board.length →
      (moveRight g).1.board.getD r [] = slideRowRight g.size (g.board.getD r [])) ∧
    (∀ g c, c < g.size →
      getColumn g.size (moveUp g).1.board c =
        slideRowLeft g.size (getColumn g.size g.board c)) ∧
    (∀ g c, c < g.size →
      getColumn g.size (moveDown g).1.board c =
        slideRowRight g.size (getColumn g.size g.board c)) ∧
    (∀ a rest, mergeTiles (a :: a :: rest) =
      (a * 2 :: (mergeTiles rest).1, a * 2 + (mergeTiles rest).2)) ∧
    (∀ a b rest, a ≠ b → mergeTiles (a :: b :: rest) =
      (a :: (mergeTiles (b :: rest)).1, (mergeTiles (b :: rest)).2)) ∧
    (∀ size row, slideRowRight size row = (slideRowLeft size row.reverse).reverse) ∧
    (∀ n a, (mergeTiles (List.replicate n a)).1 =
      List.replicate (n / 2) (a * 2) ++ (if n % 2 = 1 then [a] else [])) ∧
    slideRowLeft 4 [2, 2, 2, 2] = [4, 4, 0, 0] ∧ rowScoreLeft [2, 2, 2, 2] = 8 ∧
    slideRowRight 4 [2, 2, 2, 2] = [0, 0, 4, 4] ∧ rowScoreRight [2, 2, 2, 2] = 8 ∧
    slideRowLeft 4 [2, 2, 4, 4] = [4, 8, 0, 0] ∧ rowScoreLeft [2, 2, 4, 4] = 12 :=
  ⟨moveLeft_board_row, moveRight_board_row, moveUp_column, moveDown_column,
    mergeTiles_cons_eq, mergeTiles_cons_ne, slideRowRight_eq_reverse,
    (fun n a => (mergeTiles_replicate n a).1), by decide, by decide, by decide,
    by decide, by decide, by decide⟩

/-- C1 witness: the per-line statements evaluated on `sampleGame`. -/
theorem move_per_line_merge_witness :
    (moveLeft sampleGame).1.board.getD 0 [] =
      slideRowLeft sampleGame.size (sampleGame.board.getD 0 []) ∧
    getColumn sampleGame.size (moveUp sampleGame).1.board 1 =
      slideRowLeft sampleGame.size (getColumn sampleGame.size sampleGame.board 1) ∧
    mergeTiles (2 :: 2 :: [4, 4]) =
      (2 * 2 :: (mergeTiles [4, 4]).1, 2 * 2 + (mergeTiles [4, 4]).2) :=
  ⟨move_per_line_merge.1 sampleGame 0 (by decide),
    move_per_line_merge.2.2.1 sampleGame 1 (by decide),
    move_per_line_merge.2.2.2.2.1 2 [4, 4]⟩

/-- C2: `_check_game_state` leaves the grid and score alone and
classifies the board in priority order: `won` is set exactly when some
cell holds 2048; otherwise the flags survive unchanged when an empty
cell or an equal right/bottom neighbor pair exists; `game_over` is set
exactly when there is no 2048 tile, no empty cell and no adjacent equal
pair. -/
theorem check_game_state_classification (g : Game) :
    (checkGameState g).board = g.board ∧
    (checkGameState g).score = g.score ∧
    (checkGameState g).size = g.size ∧
    (checkGameState g).won = (g.won || hasWonTile g.board) ∧
    (checkGameState g).game_over =
      (g.game_over || (!hasWonTile g.board && !hasEmptyCell g.board &&
        !hasAdjacentEqual g.size g.board)) ∧
    (hasWonTile g.board = true ↔ ∃ row ∈ g.board, 2048 ∈ row) ∧
    (hasEmptyCell g.board = true ↔ ∃ row ∈ g.board, 0 ∈ row) ∧
    (hasAdjacentEqual g.size g.board = true ↔
      ∃ r < g.size, ∃ c < g.size,
        (c < g.size - 1 ∧ getCell g.board r c = getCell g.board r (c + 1)) ∨
        (r < g.size - 1 ∧ getCell g.board r c = getCell g.board (r + 1) c)) := by
  refine ⟨?_, ?_, ?_, ?_, ?_, ?_, ?_, hasAdjacentEqual_iff g.size g.board⟩ <;>
    first
      | (unfold checkGameState
         by_cases h1 : hasWonTile g.board <;> by_cases h2 : hasEmptyCell g.board <;>
           by_cases h3 : hasAdjacentEqual g.size g.board <;> simp [h1, h2, h3])
      | simp [hasWonTile, hasEmptyCell, List.any_eq_true]

theorem map_eq_self_of {α : Type} (l : List α) (f : α → α) (h : l.map f = l) :
    ∀ x ∈ l, f x = x := by
  induction l with
  | nil => intro x hx; cases hx
  | cons a t ih =>
    simp only [List.map_cons, List.cons.injEq] at h
    intro x hx
    rcases List.mem_cons.mp hx with rfl | hx'
    · exact h.1
    · exact ih h.2 x hx'

theorem moveLeft_fixed (g : Game)
    (h : leftBoard g = g.board) : moveLeft g = (g, false) := by
  have h2 : g.board.map (slideRowLeft g.size) = g.board := h
  have hsum : (g.board.map rowScoreLeft).sum = 0 := by
    apply List.sum_eq_zero
    intro x hx
    rcases List.mem_map.mp hx with ⟨row, hrow, rfl⟩
    exact rowScoreLeft_eq_zero_of_fixed g.size row (map_eq_self_of _ _ h2 row hrow)
  unfold moveLeft
  rw [h, hsum]
  simp

theorem moveRight_fixed (g : Game)
    (h : rightBoard g = g.board) : moveRight g = (g, false) := by
  have h2 : g.board.map (slideRowRight g.size) = g.board := h
  have hsum : (g.board.map rowScoreRight).sum = 0 := by
    apply List.sum_eq_zero
    intro x hx
    rcases List.mem_map.mp hx with ⟨row, hrow, rfl⟩
    exact rowScoreRight_eq_zero_of_fixed g.size row (map_eq_self_of _ _ h2 row hrow)
  unfold moveRight
  rw [h, hsum]
  simp

theorem cellChanged_self (size : Nat) (b : List (List Nat)) :
    cellChanged size b b = false := by
  unfold cellChanged
  simp

theorem moveUp_fixed (g : Game)
    (h : upBoard g = g.board) : moveUp g = (g, false) := by
  have hcol : ∀ c, c < g.size →
      slideRowLeft g.size (getColumn g.size g.board c) = getColumn g.size g.board c := by
    intro c hc
    have h2 : getColumn g.size (upBoard g) c =
        slideRowLeft g.size (getColumn g.size g.board c) := moveUp_column g c hc
    rw [h] at h2
    exact h2.symm
  have hsum : ((List.range g.size).map
      (fun c => rowScoreLeft (getColumn g.size g.board c))).sum = 0 := by
    apply List.sum_eq_zero
    intro x hx
    rcases List.mem_map.mp hx with ⟨c, hc, rfl⟩
    exact rowScoreLeft_eq_zero_of_fixed g.size _ (hcol c (by simpa using hc))
  unfold moveUp
  rw [h, hsum, cellChanged_self]
  simp

theorem moveDown_fixed (g : Game)
    (h : downBoard g = g.board) : moveDown g = (g, false) := by
  have hcol : ∀ c, c < g.size →
      slideRowRight g.size (getColumn g.size g.board c) = getColumn g.size g.board c := by
    intro c hc
    have h2 : getColumn g.size (downBoard g) c =
        slideRowRight g.size (getColumn g.size g.board c) := moveDown_column g c hc
    rw [h] at h2
    exact h2.symm
  have hsum : ((List.range g.size).map
      (fun c => rowScoreRight (getColumn g.size g.board c))).sum = 0 := by
    apply List.sum_eq_zero
    intro x hx
    rcases List.mem_map.mp hx with ⟨c, hc, rfl⟩
    exact rowScoreRight_eq_zero_of_fixed g.size _ (hcol c (by simpa using hc))
  unfold moveDown
  rw [h, hsum, cellChanged_self]
  simp

/-- Unfolding of `move()` on a non-terminal state, written through `dispatchMove`. -/
theorem move_not_terminal (pick : Nat) (u : ℚ) (g : Game) (direction : String)
    (hgo : g.game_over = false) (hwon : g.won = false) :
    move pick u g direction =
      (if (dispatchMove { g with moved := false } direction).2 then
        (checkGameState (addRandomTile pick u
          { (dispatchMove { g with moved := false } direction).1 with
            moved := (dispatchMove { g with moved := false } direction).2 }), true)
      else ({ (dispatchMove { g with moved := false } direction).1 with
        moved := (dispatchMove { g with moved := false } direction).2 }, false)) := by
  unfold move
  rw [hgo, hwon]
  rfl

/-- C3: an ineffective slide (no cell changes in the chosen direction)
makes `move()` return `false` with no spawn, no state re-check, and an
unchanged board, score and status (only the `moved` flag is reset). -/
theorem noop_move_rejected (pick : Nat) (u : ℚ) (g : Game) (direction : String)
    (hgo : g.game_over = false) (hwon : g.won = false)
    (hdir : direction = "left" ∨ direction = "right" ∨
      direction = "up" ∨ direction = "down")
    (hfix : slideBoard g direction = g.board) :
    move pick u g direction = ({ g with moved := false }, false) := by
  rw [move_not_terminal pick u g direction hgo hwon]
  rcases hdir with rfl | rfl | rfl | rfl
  · have hstep : dispatchMove { g with moved := false } "left" =
        ({ g with moved := false }, false) :=
      moveLeft_fixed { g with moved := false } hfix
    rw [hstep]
    rfl
  · have hstep : dispatchMove { g with moved := false } "right" =
        ({ g with moved := false }, false) :=
      moveRight_fixed { g with moved := false } hfix
    rw [hstep]
    rfl
  · have hstep : dispatchMove { g with moved := false } "up" =
        ({ g with moved := false }, false) :=
      moveUp_fixed { g with moved := false } hfix
    rw [hstep]
    rfl
  · have hstep : dispatchMove { g with moved := false } "down" =
        ({ g with moved := false }, false) :=
      moveDown_fixed { g with moved := false } hfix
    rw [hstep]
    rfl

/-- C3 witness: on the full alternating board no direction moves; the
`"left"` call is evaluated concretely. -/
theorem noop_move_rejected_witness :
    move 0 0 stuckGame "left" = ({ stuckGame with moved := false }, false) :=
  noop_move_rejected 0 0 stuckGame "left" rfl rfl (Or.inl rfl) (by decide)

theorem checkGameState_score (g : Game) : (checkGameState g).score = g.score := by
  unfold checkGameState
  by_cases h1 : hasWonTile g.board <;> by_cases h2 : hasEmptyCell g.board <;>
    by_cases h3 : hasAdjacentEqual g.size g.board <;> simp [h1, h2, h3]

theorem addRandomTile_score (pick : Nat) (u : ℚ) (g : Game) :
    (addRandomTile pick u g).score = g.score := by
  unfold addRandomTile
  by_cases h : (emptyCells g.size g.board).isEmpty <;> simp [h]

theorem dispatch_score_le (g0 : Game) (direction : String) :
    g0.score ≤ (dispatchMove g0 direction).1.score := by
  unfold dispatchMove
  by_cases h1 : direction = "left"
  · rw [if_pos h1]
    exact Nat.le_add_right _ _
  rw [if_neg h1]
  by_cases h2 : direction = "right"
  · rw [if_pos h2]
    exact Nat.le_add_right _ _
  rw [if_neg h2]
  by_cases h3 : direction = "up"
  · rw [if_pos h3]
    exact Nat.le_add_right _ _
  rw [if_neg h3]
  by_cases h4 : direction = "down"
  · rw [if_pos h4]
    exact Nat.le_add_right _ _
  rw [if_neg h4]

theorem move_score_le (pick : Nat) (u : ℚ) (g : Game) (direction : String) :
    g.score ≤ (move pick u g direction).1.score := by
  by_cases hgo : g.game_over = true
  · unfold move
    rw [if_pos (by simp [hgo])]
  by_cases hwon : g.won = true
  · unfold move
    rw [if_pos (by simp [hwon])]
  rw [move_not_terminal pick u g direction (by simpa using hgo) (by simpa using hwon)]
  have hle : g.score ≤ (dispatchMove { g with moved := false } direction).1.score :=
    dispatch_score_le { g with moved := false } direction
  by_cases hm : (dispatchMove { g with moved := false } direction).2 = true
  · rw [if_pos hm]
    show g.score ≤ (checkGameState (addRandomTile pick u _)).score
    rw [checkGameState_score, addRandomTile_score]
    exact hle
  · rw [if_neg hm]
    exact hle

/-- C6: the score never decreases across a `move()` call, hence across
any sequence of `move()` calls, and `reset()` sets it to exactly 0. -/
theorem score_monotone :
    (∀ (pick : Nat) (u : ℚ) (g : Game) (direction : String),
      g.score ≤ (move pick u g direction).1.score) ∧
    (∀ (g : Game) (ms : List (Nat × ℚ × String)), g.score ≤ (runMoves g ms).score) ∧
    (∀ (p1 : Nat) (u1 : ℚ) (p2 : Nat) (u2 : ℚ) (g : Game),
      (resetGame p1 u1 p2 u2 g).score = 0) := by
  refine ⟨move_score_le, ?_, ?_⟩
  · intro g ms
    induction ms generalizing g with
    | nil => exact le_refl _
    | cons m rest ih =>
      calc g.score ≤ (move m.1 m.2.1 g m.2.2).1.score := move_score_le _ _ _ _
        _ ≤ (runMoves (move m.1 m.2.1 g m.2.2).1 rest).score := ih _
        _ = (runMoves g (m :: rest)).score := rfl
  · intro p1 u1 p2 u2 g
    unfold resetGame
    rw [addRandomTile_score, addRandomTile_score]

/-- C5: once `won` or `game_over` is set, `move()` returns `false` at
once and the whole state — board, score and flags — is untouched. -/
theorem move_after_terminal (pick : Nat) (u : ℚ) (g : Game) (direction : String)
    (h : g.game_over = true ∨ g.won = true) :
    move pick u g direction = (g, false) := by
  unfold move
  rcases h with h | h <;> simp [h]

/-- C5 witness: a won game and a lost game refuse a `move()` call. -/
theorem move_after_terminal_witness :
    move 0 0 wonGame "left" = (wonGame, false) ∧
    move 3 (1 / 2) lostGame "down" = (lostGame, false) :=
  ⟨move_after_terminal 0 0 wonGame "left" (Or.inr rfl),
    move_after_terminal 3 (1 / 2) lostGame "down" (Or.inl rfl)⟩

/-- C9 counterexample: an unrecognized direction string on an
in-progress board is NOT rejected with an error — `move()` silently
returns `false` and leaves the state unchanged (only the `moved` flag is
rewritten to `False`, which it already was). -/
theorem invalid_direction_counterexample :
    move 0 0 sampleGame "diagonal" = (sampleGame, false) := by
  decide

/-- C9 amended: a `move()` call with a direction string outside
`left/right/up/down` on a non-terminal board is silently treated as a
no-op: it returns `false`, spawns nothing, and leaves board, score and
status unchanged (`moved` is reset to `False`). -/
theorem invalid_direction_silent_noop (pick : Nat) (u : ℚ) (g : Game)
    (direction : String) (hgo : g.game_over = false) (hwon : g.won = false)
    (h1 : direction ≠ "left") (h2 : direction ≠ "right")
    (h3 : direction ≠ "up") (h4 : direction ≠ "down") :
    move pick u g direction = ({ g with moved := false }, false) := by
  rw [move_not_terminal pick u g direction hgo hwon]
  have hstep : dispatchMove { g with moved := false } direction =
      ({ g with moved := false }, false) := by
    unfold dispatchMove
    rw [if_neg h1, if_neg h2, if_neg h3, if_neg h4]
  rw [hstep]
  rfl

/-- C9 amended witness: evaluated on `sampleGame` with `"diagonal"`. -/
theorem invalid_direction_silent_noop_witness :
    move 5 (1 / 3) sampleGame "diagonal" = ({ sampleGame with moved := false }, false) :=
  invalid_direction_silent_noop 5 (1 / 3) sampleGame "diagonal" rfl rfl
    (by decide) (by decide) (by decide) (by decide)

theorem countP_set_incr (p : Nat → Bool) :
    ∀ (l : List Nat) (c : Nat), c < l.length → p (l.getD c 0) = false →
      ∀ v, p v = true → (l.set c v).countP p = l.countP p + 1
  | [], c, hc, _, _, _ => by simp at hc
  | a :: t, 0, _, hold, v, hnew => by
    simp only [List.getD_cons_zero] at hold
    simp [List.countP_cons, hold, hnew]
  | a :: t, c + 1, hc, hold, v, hnew => by
    simp only [List.getD_cons_succ] at hold
    have ih := countP_set_incr p t c (by simpa using hc) hold v hnew
    simp [List.countP_cons, ih]
    omega

theorem nonzeroCount_setCell :
    ∀ (b : List (List Nat)) (r : Nat), r < b.length →
      ∀ (c v : Nat), c < (b.getD r []).length → getCell b r c = 0 → v ≠ 0 →
        nonzeroCount (setCell b r c v) = nonzeroCount b + 1
  | [], r, hr, _, _, _, _, _ => by simp at hr
  | row :: t, 0, _, c, v, hc, hcell, hv => by
    simp only [List.getD_cons_zero] at hc
    have hcell0 : row.getD c 0 = 0 := hcell
    have hstep := countP_set_incr (fun t => t ≠ 0) row c hc
      (by rw [hcell0]; decide) v (by simpa using hv)
    show nonzeroCount ((row.set c v) :: t) = nonzeroCount (row :: t) + 1
    simp only [nonzeroCount, List.map_cons, List.sum_cons, hstep]
    omega
  | row :: t, r + 1, hr, c, v, hc, hcell, hv => by
    simp only [List.getD_cons_succ] at hc
    have hcell' : getCell t r c = 0 := hcell
    have ih := nonzeroCount_setCell t r (by simpa using hr) c v hc hcell' hv
    show nonzeroCount (row :: setCell t r c v) = nonzeroCount (row :: t) + 1
    simp only [nonzeroCount, List.map_cons, List.sum_cons] at ih ⊢
    omega

theorem mem_emptyCells (size : Nat) (b : List (List Nat)) (r c : Nat) :
    (r, c) ∈ emptyCells size b ↔ r < size ∧ c < size ∧ getCell b r c = 0 := by
  simp only [emptyCells, List.mem_flatMap, List.mem_map, List.mem_filter,
    List.mem_range, beq_iff_eq]
  constructor
  · rintro ⟨r', hr', c', ⟨hc', h0⟩, heq⟩
    obtain ⟨rfl, rfl⟩ : r' = r ∧ c' = c := by
      constructor <;> [exact (Prod.mk.injEq _ _ _ _ ▸ heq).1;
        exact (Prod.mk.injEq _ _ _ _ ▸ heq).2]
    exact ⟨hr', hc', h0⟩
  · rintro ⟨hr, hc, h0⟩
    exact ⟨r, hr, c, ⟨hc, h0⟩, rfl⟩

theorem emptyCells_ne_nil (size : Nat) (b : List (List Nat)) (r c : Nat)
    (hr : r < size) (hc : c < size) (h0 : getCell b r c = 0) :
    emptyCells size b ≠ [] := by
  intro hnil
  have hmem := (mem_emptyCells size b r c).mpr ⟨hr, hc, h0⟩
  rw [hnil] at hmem
  cases hmem

theorem getD_mod_mem (l : List (Nat × Nat)) (hne : l ≠ []) (i : Nat) :
    l.getD (i % l.length) (0, 0) ∈ l := by
  have hlen : 0 < l.length := List.length_pos.mpr hne
  rw [List.getD_eq_getElem _ _ (Nat.mod_lt _ hlen)]
  exact List.getElem_mem _

theorem tileValue_ne_zero (u : ℚ) : tileValue u ≠ 0 := by
  unfold tileValue
  by_cases h : u < 9 / 10 <;> simp [h]

/-- Behavior of `_add_random_tile` on a board with an empty cell: the chosen cell is
one of the empty cells and the new grid is the old one with that single
cell overwritten by `tileValue u`. -/
theorem addRandomTile_spec (pick : Nat) (u : ℚ) (g : Game)
    (hne : emptyCells g.size g.board ≠ []) :
    ∃ r c, (r, c) ∈ emptyCells g.size g.board ∧
      (r, c) = (emptyCells g.size g.board).getD
        (pick % (emptyCells g.size g.board).length) (0, 0) ∧
      (addRandomTile pick u g).board = setCell g.board r c (tileValue u) := by
  refine ⟨((emptyCells g.size g.board).getD
      (pick % (emptyCells g.size g.board).length) (0, 0)).1,
    ((emptyCells g.size g.board).getD
      (pick % (emptyCells g.size g.board).length) (0, 0)).2,
    ?_, rfl, ?_⟩
  · exact getD_mod_mem _ hne _
  · unfold addRandomTile
    rw [if_neg (by simpa [List.isEmpty_iff] using hne)]

theorem addRandomTile_fields (pick : Nat) (u : ℚ) (g : Game) :
    (addRandomTile pick u g).size = g.size ∧
    (addRandomTile pick u g).game_over = g.game_over ∧
    (addRandomTile pick u g).won = g.won ∧
    (addRandomTile pick u g).moved = g.moved := by
  unfold addRandomTile
  by_cases h : (emptyCells g.size g.board).isEmpty <;> simp [h]

theorem setCell_wellFormed (size : Nat) (b : List (List Nat)) (r c v : Nat)
    (hwf : WellFormedB size b) : WellFormedB size (setCell b r c v) := by
  obtain ⟨hlen, hrows⟩ := hwf
  by_cases hr : r < b.length
  · refine ⟨by simpa [setCell] using hlen, ?_⟩
    intro row hrow
    rcases List.mem_or_eq_of_mem_set hrow with h | rfl
    · exact hrows row h
    · rw [List.length_set]
      exact hrows _ (by rw [List.getD_eq_getElem _ _ hr]; exact List.getElem_mem _)
  · have hnoop : setCell b r c v = b := by
      unfold setCell
      exact List.set_eq_of_length_le (by omega)
    rw [hnoop]
    exact ⟨hlen, hrows⟩

theorem sum_map_const {α : Type} (l : List α) (k : Nat) :
    (l.map (fun _ => k)).sum = l.length * k := by
  induction l with
  | nil => simp
  | cons a t ih =>
    simp only [List.map_cons, List.sum_cons, List.length_cons, ih]
    ring

theorem nonzeroCount_blank (size : Nat) : nonzeroCount (blankBoard size) = 0 := by
  unfold nonzeroCount blankBoard
  have h : (List.replicate size (0 : Nat)).countP (fun t => t ≠ 0) = 0 := by
    rw [List.countP_eq_length_filter, List.filter_replicate]
    simp
  simp [List.map_replicate, h]

theorem blank_wellFormed (size : Nat) : WellFormedB size (blankBoard size) := by
  constructor
  · simp [blankBoard]
  · intro row hrow
    rw [List.eq_of_mem_replicate hrow]
    simp

theorem getD_replicate {α : Type} (n : Nat) (a : α) (i : Nat) :
    (List.replicate n a).getD i a = a := by
  by_cases h : i < n
  · rw [List.getD_eq_getElem _ _ (by simpa)]
    simp
  · rw [List.getD_eq_default _ _ (by simpa using h)]

theorem getCell_blank (size r c : Nat) : getCell (blankBoard size) r c = 0 := by
  unfold getCell blankBoard
  have hrow : (List.replicate size (List.replicate size (0 : Nat))).getD r [] =
      if r < size then List.replicate size 0 else [] := by
    by_cases hr : r < size
    · rw [if_pos hr, List.getD_eq_getElem _ _ (by simpa)]
      simp
    · rw [if_neg hr, List.getD_eq_default _ _ (by simpa using hr)]
  rw [hrow]
  by_cases hr : r < size
  · rw [if_pos hr]
    exact getD_replicate size 0 c
  · rw [if_neg hr]
    simp

theorem exists_zero_cell (size : Nat) (b : List (List Nat))
    (hwf : WellFormedB size b) (h : nonzeroCount b < size * size) :
    ∃ r, r < size ∧ ∃ c, c < size ∧ getCell b r c = 0 := by
  obtain ⟨hlen, hrows⟩ := hwf
  by_contra hno
  push_neg at hno
  have hrow : ∀ row ∈ b, row.countP (fun t => t ≠ 0) = row.length := by
    intro row hrowmem
    refine List.countP_eq_length.mpr ?_
    intro a ha
    rcases List.mem_iff_getElem.mp hrowmem with ⟨r, hrb, hEq⟩
    rcases List.mem_iff_getElem.mp ha with ⟨c, hcrow, hEq2⟩
    have hgc : getCell b r c = a := by
      unfold getCell
      rw [List.getD_eq_getElem _ _ hrb, hEq, List.getD_eq_getElem _ _ hcrow, hEq2]
    have hr : r < size := by omega
    have hc : c < size := by
      have := hrows row hrowmem
      omega
    have := hno r hr c hc
    rw [hgc] at this
    simpa using this
  have htotal : nonzeroCount b = size * size := by
    unfold nonzeroCount
    rw [List.map_congr_left hrow,
      List.map_congr_left (fun row hr => hrows row hr), sum_map_const, hlen]
  omega

theorem addRandomTile_count (pick : Nat) (u : ℚ) (g : Game)
    (hwf : WellFormedB g.size g.board)
    (hne : emptyCells g.size g.board ≠ []) :
    nonzeroCount (addRandomTile pick u g).board = nonzeroCount g.board + 1 := by
  obtain ⟨r, c, hmem, _, hboard⟩ := addRandomTile_spec pick u g hne
  obtain ⟨hr, hc, h0⟩ := (mem_emptyCells _ _ _ _).mp hmem
  obtain ⟨hlen, hrows⟩ := hwf
  have hrb : r < g.board.length := by omega
  have hcb : c < (g.board.getD r []).length := by
    rw [hrows _ (by rw [List.getD_eq_getElem _ _ hrb]; exact List.getElem_mem _)]
    exact hc
  rw [hboard]
  exact nonzeroCount_setCell g.board r hrb c (tileValue u) hcb h0 (tileValue_ne_zero u)

theorem addRandomTile_wellFormed (pick : Nat) (u : ℚ) (g : Game)
    (hwf : WellFormedB g.size g.board) :
    WellFormedB g.size (addRandomTile pick u g).board := by
  unfold addRandomTile
  by_cases h : (emptyCells g.size g.board).isEmpty
  · simpa [h] using hwf
  · simp only [h, Bool.false_eq_true, if_false]
    exact setCell_wellFormed _ _ _ _ _ hwf

/-- Two spawns on a blank grid of size at least 2 produce exactly two
non-zero cells on a well-formed grid, leaving score and flags alone. -/
theorem two_tiles_spec (g : Game) (p1 p2 : Nat) (u1 u2 : ℚ)
    (hblank : g.board = blankBoard g.size) (hsize : 2 ≤ g.size) :
    WellFormedB g.size (addRandomTile p2 u2 (addRandomTile p1 u1 g)).board ∧
    nonzeroCount (addRandomTile p2 u2 (addRandomTile p1 u1 g)).board = 2 ∧
    (addRandomTile p2 u2 (addRandomTile p1 u1 g)).size = g.size ∧
    (addRandomTile p2 u2 (addRandomTile p1 u1 g)).score = g.score ∧
    (addRandomTile p2 u2 (addRandomTile p1 u1 g)).game_over = g.game_over ∧
    (addRandomTile p2 u2 (addRandomTile p1 u1 g)).won = g.won := by
  have hwf0 : WellFormedB g.size g.board := by
    rw [hblank]
    exact blank_wellFormed g.size
  have hne1 : emptyCells g.size g.board ≠ [] := by
    refine emptyCells_ne_nil g.size g.board 0 0 (by omega) (by omega) ?_
    rw [hblank]
    exact getCell_blank g.size 0 0
  have hcount0 : nonzeroCount g.board = 0 := by
    rw [hblank]
    exact nonzeroCount_blank g.size
  have hcount1 : nonzeroCount (addRandomTile p1 u1 g).board = 1 := by
    rw [addRandomTile_count p1 u1 g hwf0 hne1, hcount0]
  have hsz1 : (addRandomTile p1 u1 g).size = g.size := (addRandomTile_fields p1 u1 g).1
  have hwf1 : WellFormedB (addRandomTile p1 u1 g).size (addRandomTile p1 u1 g).board := by
    rw [hsz1]
    exact addRandomTile_wellFormed p1 u1 g hwf0
  have hne2 : emptyCells (addRandomTile p1 u1 g).size (addRandomTile p1 u1 g).board ≠ [] := by
    have hlt : nonzeroCount (addRandomTile p1 u1 g).board <
        (addRandomTile p1 u1 g).size * (addRandomTile p1 u1 g).size := by
      rw [hcount1, hsz1]
      nlinarith
    obtain ⟨r, hr, c, hc, h0⟩ := exists_zero_cell _ _ hwf1 hlt
    exact emptyCells_ne_nil _ _ r c hr hc h0
  have hcount2 : nonzeroCount (addRandomTile p2 u2 (addRandomTile p1 u1 g)).board = 2 := by
    rw [addRandomTile_count p2 u2 (addRandomTile p1 u1 g) hwf1 hne2, hcount1]
  have hwf2 : WellFormedB (addRandomTile p1 u1 g).size
      (addRandomTile p2 u2 (addRandomTile p1 u1 g)).board :=
    addRandomTile_wellFormed p2 u2 (addRandomTile p1 u1 g) hwf1
  refine ⟨by rw [← hsz1]; exact hwf2, hcount2, ?_, ?_, ?_, ?_⟩
  · rw [(addRandomTile_fields p2 u2 _).1, hsz1]
  · rw [addRandomTile_score, addRandomTile_score]
  · rw [(addRandomTile_fields p2 u2 _).2.1, (addRandomTile_fields p1 u1 g).2.1]
  · rw [(addRandomTile_fields p2 u2 _).2.2.1, (addRandomTile_fields p1 u1 g).2.2.1]

/-- C7: right after construction with a valid size, and right after
`reset()`, the grid is a `size × size` matrix with exactly two non-zero
cells, the score is 0 and the status is in-progress (both flags clear). -/
theorem init_reset_two_tiles (size : Nat) (p1 p2 : Nat) (u1 u2 : ℚ) (g : Game)
    (hsize : 2 ≤ size) (hgsize : 2 ≤ g.size) :
    ((initGame size p1 u1 p2 u2).board.length = size ∧
     (∀ row ∈ (initGame size p1 u1 p2 u2).board, row.length = size) ∧
     nonzeroCount (initGame size p1 u1 p2 u2).board = 2 ∧
     (initGame size p1 u1 p2 u2).score = 0 ∧
     (initGame size p1 u1 p2 u2).game_over = false ∧
     (initGame size p1 u1 p2 u2).won = false) ∧
    ((resetGame p1 u1 p2 u2 g).board.length = g.size ∧
     (∀ row ∈ (resetGame p1 u1 p2 u2 g).board, row.length = g.size) ∧
     nonzeroCount (resetGame p1 u1 p2 u2 g).board = 2 ∧
     (resetGame p1 u1 p2 u2 g).score = 0 ∧
     (resetGame p1 u1 p2 u2 g).game_over = false ∧
     (resetGame p1 u1 p2 u2 g).won = false) := by
  constructor
  · have h := two_tiles_spec
      { size := size, board := blankBoard size, score := 0,
        game_over := false, won := false, moved := false } p1 p2 u1 u2 rfl hsize
    exact ⟨h.1.1, h.1.2, h.2.1, h.2.2.2.1, h.2.2.2.2.1, h.2.2.2.2.2⟩
  · have h := two_tiles_spec
      { g with
        board := blankBoard g.size, score := 0,
        game_over := false, won := false, moved := false } p1 p2 u1 u2 rfl hgsize
    exact ⟨h.1.1, h.1.2, h.2.1, h.2.2.2.1, h.2.2.2.2.1, h.2.2.2.2.2⟩

/-- C7 witness: a size-4 construction and a reset of `wonGame`. -/
theorem init_reset_two_tiles_witness :
    nonzeroCount (initGame 4 0 0 1 0).board = 2 ∧
    nonzeroCount (resetGame 0 0 1 0 wonGame).board = 2 ∧
    (resetGame 0 0 1 0 wonGame).score = 0 :=
  ⟨(init_reset_two_tiles 4 0 1 0 0 wonGame (by decide) (by decide)).1.2.2.1,
   (init_reset_two_tiles 4 0 1 0 0 wonGame (by decide) (by decide)).2.2.2.1,
   (init_reset_two_tiles 4 0 1 0 0 wonGame (by decide) (by decide)).2.2.2.2.1⟩

theorem checkGameState_board (g : Game) : (checkGameState g).board = g.board := by
  unfold checkGameState
  by_cases h1 : hasWonTile g.board <;> by_cases h2 : hasEmptyCell g.board <;>
    by_cases h3 : hasAdjacentEqual g.size g.board <;> simp [h1, h2, h3]

theorem board_ext (size : Nat) (b1 b2 : List (List Nat))
    (h1 : WellFormedB size b1) (h2 : WellFormedB size b2)
    (hc : ∀ r, r < size → ∀ c, c < size → getCell b1 r c = getCell b2 r c) :
    b1 = b2 := by
  obtain ⟨hl1, hr1⟩ := h1
  obtain ⟨hl2, hr2⟩ := h2
  refine List.ext_getElem (by omega) ?_
  intro r hra hrb
  have hlenr1 : b1[r].length = size := hr1 _ (List.getElem_mem hra)
  have hlenr2 : b2[r].length = size := hr2 _ (List.getElem_mem hrb)
  refine List.ext_getElem (by omega) ?_
  intro c hca hcb
  have hrsz : r < size := by omega
  have hcsz : c < size := by omega
  have key := hc r hrsz c hcsz
  unfold getCell at key
  rw [List.getD_eq_getElem b1 [] hra, List.getD_eq_getElem b2 [] hrb] at key
  rw [List.getD_eq_getElem b1[r] 0 hca, List.getD_eq_getElem b2[r] 0 hcb] at key
  exact key

theorem cellChanged_eq_false_iff (size : Nat) (b1 b2 : List (List Nat)) :
    cellChanged size b1 b2 = false ↔
      ∀ r, r < size → ∀ c, c < size → getCell b1 r c = getCell b2 r c := by
  unfold cellChanged
  simp [List.any_eq_false]

theorem cellChanged_of_ne (size : Nat) (b1 b2 : List (List Nat))
    (h1 : WellFormedB size b1) (h2 : WellFormedB size b2) (hne : b1 ≠ b2) :
    cellChanged size b1 b2 = true := by
  by_contra h
  have hf : cellChanged size b1 b2 = false := by
    cases hb : cellChanged size b1 b2
    · rfl
    · exact absurd hb h
  exact hne (board_ext size b1 b2 h1 h2 ((cellChanged_eq_false_iff size b1 b2).mp hf))

theorem leftBoard_wellFormed (g : Game) (hwf : WellFormed g) :
    WellFormedB g.size (leftBoard g) := by
  obtain ⟨hlen, hrows⟩ := hwf
  refine ⟨by simpa [leftBoard] using hlen, ?_⟩
  intro row hrow
  rcases List.mem_map.mp hrow with ⟨orig, horig, rfl⟩
  exact slideRowLeft_length g.size orig (le_of_eq (hrows orig horig))

theorem rightBoard_wellFormed (g : Game) (hwf : WellFormed g) :
    WellFormedB g.size (rightBoard g) := by
  obtain ⟨hlen, hrows⟩ := hwf
  refine ⟨by simpa [rightBoard] using hlen, ?_⟩
  intro row hrow
  rcases List.mem_map.mp hrow with ⟨orig, horig, rfl⟩
  exact slideRowRight_length g.size orig (le_of_eq (hrows orig horig))

theorem upBoard_wellFormed (g : Game) : WellFormedB g.size (upBoard g) := by
  refine ⟨by simp [upBoard], ?_⟩
  intro row hrow
  rcases List.mem_map.mp hrow with ⟨r, _, rfl⟩
  simp

theorem downBoard_wellFormed (g : Game) : WellFormedB g.size (downBoard g) := by
  refine ⟨by simp [downBoard], ?_⟩
  intro row hrow
  rcases List.mem_map.mp hrow with ⟨r, _, rfl⟩
  simp

theorem zero_mem_exists_cell (size : Nat) (b : List (List Nat))
    (hwf : WellFormedB size b) (row : List Nat) (hrow : row ∈ b)
    (h0 : (0 : Nat) ∈ row) :
    ∃ r, r < size ∧ ∃ c, c < size ∧ getCell b r c = 0 := by
  obtain ⟨hlen, hrows⟩ := hwf
  rcases List.mem_iff_getElem.mp hrow with ⟨r, hrb, hEq⟩
  rcases List.mem_iff_getElem.mp h0 with ⟨c, hcrow, hEq2⟩
  refine ⟨r, by omega, c, ?_, ?_⟩
  · have := hrows row hrow
    omega
  · unfold getCell
    rw [List.getD_eq_getElem _ _ hrb, hEq, List.getD_eq_getElem _ _ hcrow, hEq2]

theorem slide_empty_left (g : Game) (hwf : WellFormed g)
    (hne : leftBoard g ≠ g.board) :
    emptyCells g.size (leftBoard g) ≠ [] := by
  have hex : ∃ row ∈ g.board, slideRowLeft g.size row ≠ row := by
    by_contra hall
    push_neg at hall
    apply hne
    unfold leftBoard
    calc g.board.map (slideRowLeft g.size) = g.board.map id :=
          List.map_congr_left (fun row hr => hall row hr)
      _ = g.board := List.map_id g.board
  obtain ⟨row, hrow, hnerow⟩ := hex
  have h0 : (0 : Nat) ∈ slideRowLeft g.size row :=
    slideRowLeft_zero_mem g.size row (hwf.2 row hrow) hnerow
  have hmem : slideRowLeft g.size row ∈ leftBoard g := by
    unfold leftBoard
    exact List.mem_map.mpr ⟨row, hrow, rfl⟩
  obtain ⟨r, hr, c, hc, hcell⟩ :=
    zero_mem_exists_cell g.size (leftBoard g) (leftBoard_wellFormed g hwf) _ hmem h0
  exact emptyCells_ne_nil _ _ r c hr hc hcell

theorem slide_empty_right (g : Game) (hwf : WellFormed g)
    (hne : rightBoard g ≠ g.board) :
    emptyCells g.size (rightBoard g) ≠ [] := by
  have hex : ∃ row ∈ g.board, slideRowRight g.size row ≠ row := by
    by_contra hall
    push_neg at hall
    apply hne
    unfold rightBoard
    calc g.board.map (slideRowRight g.size) = g.board.map id :=
          List.map_congr_left (fun row hr => hall row hr)
      _ = g.board := List.map_id g.board
  obtain ⟨row, hrow, hnerow⟩ := hex
  have h0 : (0 : Nat) ∈ slideRowRight g.size row :=
    slideRowRight_zero_mem g.size row (hwf.2 row hrow) hnerow
  have hmem : slideRowRight g.size row ∈ rightBoard g := by
    unfold rightBoard
    exact List.mem_map.mpr ⟨row, hrow, rfl⟩
  obtain ⟨r, hr, c, hc, hcell⟩ :=
    zero_mem_exists_cell g.size (rightBoard g) (rightBoard_wellFormed g hwf) _ hmem h0
  exact emptyCells_ne_nil _ _ r c hr hc hcell

theorem slide_empty_up (g : Game) (hwf : WellFormed g)
    (hne : upBoard g ≠ g.board) :
    emptyCells g.size (upBoard g) ≠ [] := by
  have hex : ∃ c, c < g.size ∧
      slideRowLeft g.size (getColumn g.size g.board c) ≠ getColumn g.size g.board c := by
    by_contra hall
    push_neg at hall
    apply hne
    refine board_ext g.size (upBoard g) g.board (upBoard_wellFormed g)
      ⟨hwf.1, hwf.2⟩ ?_
    intro r hr c hc
    have hcellEq : getCell (upBoard g) r c =
        (slideRowLeft g.size (getColumn g.size g.board c)).getD r 0 :=
      moveUp_getCell g r c hr hc
    rw [hcellEq, hall c hc]
    unfold getColumn
    exact getD_map_range g.size r _ 0 hr
  obtain ⟨c, hc, hnecol⟩ := hex
  have h0 : (0 : Nat) ∈ slideRowLeft g.size (getColumn g.size g.board c) :=
    slideRowLeft_zero_mem g.size _ (getColumn_length g.size g.board c) hnecol
  have hcol : getColumn g.size (upBoard g) c =
      slideRowLeft g.size (getColumn g.size g.board c) := moveUp_column g c hc
  rw [← hcol] at h0
  unfold getColumn at h0
  rcases List.mem_map.mp h0 with ⟨r, hrmem, hcell⟩
  exact emptyCells_ne_nil _ _ r c (by simpa using List.mem_range.mp hrmem) hc hcell

theorem slide_empty_down (g : Game) (hwf : WellFormed g)
    (hne : downBoard g ≠ g.board) :
    emptyCells g.size (downBoard g) ≠ [] := by
  have hex : ∃ c, c < g.size ∧
      slideRowRight g.size (getColumn g.size g.board c) ≠ getColumn g.size g.board c := by
    by_contra hall
    push_neg at hall
    apply hne
    refine board_ext g.size (downBoard g) g.board (downBoard_wellFormed g)
      ⟨hwf.1, hwf.2⟩ ?_
    intro r hr c hc
    have hcellEq : getCell (downBoard g) r c =
        (slideRowRight g.size (getColumn g.size g.board c)).getD r 0 :=
      moveDown_getCell g r c hr hc
    rw [hcellEq, hall c hc]
    unfold getColumn
    exact getD_map_range g.size r _ 0 hr
  obtain ⟨c, hc, hnecol⟩ := hex
  have h0 : (0 : Nat) ∈ slideRowRight g.size (getColumn g.size g.board c) :=
    slideRowRight_zero_mem g.size _ (getColumn_length g.size g.board c) hnecol
  have hcol : getColumn g.size (downBoard g) c =
      slideRowRight g.size (getColumn g.size g.board c) := moveDown_column g c hc
  rw [← hcol] at h0
  unfold getColumn at h0
  rcases List.mem_map.mp h0 with ⟨r, hrmem, hcell⟩
  exact emptyCells_ne_nil _ _ r c (by simpa using List.mem_range.mp hrmem) hc hcell

theorem move_effective_left (pick : Nat) (u : ℚ) (g : Game)
    (hgo : g.game_over = false) (hwon : g.won = false)
    (hm : leftBoard g ≠ g.board) :
    move pick u g "left" =
      (checkGameState (addRandomTile pick u
        { g with
          board := leftBoard g,
          score := g.score + (g.board.map rowScoreLeft).sum, moved := true }), true) := by
  rw [move_not_terminal pick u g "left" hgo hwon]
  have hm2 : (dispatchMove { g with moved := false } "left").2 = true :=
    decide_eq_true hm
  rw [if_pos hm2, hm2]
  rfl

theorem move_effective_right (pick : Nat) (u : ℚ) (g : Game)
    (hgo : g.game_over = false) (hwon : g.won = false)
    (hm : rightBoard g ≠ g.board) :
    move pick u g "right" =
      (checkGameState (addRandomTile pick u
        { g with
          board := rightBoard g,
          score := g.score + (g.board.map rowScoreRight).sum, moved := true }), true) := by
  rw [move_not_terminal pick u g "right" hgo hwon]
  have hm2 : (dispatchMove { g with moved := false } "right").2 = true :=
    decide_eq_true hm
  rw [if_pos hm2, hm2]
  rfl

theorem move_effective_up (pick : Nat) (u : ℚ) (g : Game)
    (hgo : g.game_over = false) (hwon : g.won = false)
    (hm : cellChanged g.size (upBoard g) g.board = true) :
    move pick u g "up" =
      (checkGameState (addRandomTile pick u
        { g with
          board := upBoard g,
          score := g.score + ((List.range g.size).map
            (fun c => rowScoreLeft (getColumn g.size g.board c))).sum,
          moved := true }), true) := by
  rw [move_not_terminal pick u g "up" hgo hwon]
  have hm2 : (dispatchMove { g with moved := false } "up").2 = true := hm
  rw [if_pos hm2, hm2]
  rfl

theorem move_effective_down (pick : Nat) (u : ℚ) (g : Game)
    (hgo : g.game_over = false) (hwon : g.won = false)
    (hm : cellChanged g.size (downBoard g) g.board = true) :
    move pick u g "down" =
      (checkGameState (addRandomTile pick u
        { g with
          board := downBoard g,
          score := g.score + ((List.range g.size).map
            (fun c => rowScoreRight (getColumn g.size g.board c))).sum,
          moved := true }), true) := by
  rw [move_not_terminal pick u g "down" hgo hwon]
  have hm2 : (dispatchMove { g with moved := false } "down").2 = true := hm
  rw [if_pos hm2, hm2]
  rfl

theorem spawn_spec (pick : Nat) (u : ℚ) (gs : Game)
    (hne : emptyCells gs.size gs.board ≠ []) :
    ∃ r c, r < gs.size ∧ c < gs.size ∧ getCell gs.board r c = 0 ∧
      (r, c) = (emptyCells gs.size gs.board).getD
        (pick % (emptyCells gs.size gs.board).length) (0, 0) ∧
      (checkGameState (addRandomTile pick u gs)).board =
        setCell gs.board r c (tileValue u) := by
  obtain ⟨r, c, hmem, hpos, hb⟩ := addRandomTile_spec pick u gs hne
  obtain ⟨hr, hc, h0⟩ := (mem_emptyCells _ _ _ _).mp hmem
  exact ⟨r, c, hr, hc, h0, hpos, by rw [checkGameState_board]; exact hb⟩

/-- C4: on an in-progress board, an effective slide is followed by
exactly one spawn: the final grid is the slid grid with a single
previously-empty cell (such a cell always exists after an effective
slide) overwritten — the cell selected by the uniform pick over the
empty-cell list — holding 2 exactly when the draw `u` is below 9/10 and
4 otherwise, and `move()` returns `true`. -/
theorem effective_move_spawns_one_tile (pick : Nat) (u : ℚ) (g : Game)
    (direction : String) (hwf : WellFormed g)
    (hgo : g.game_over = false) (hwon : g.won = false)
    (hdir : direction = "left" ∨ direction = "right" ∨
      direction = "up" ∨ direction = "down")
    (heff : slideBoard g direction ≠ g.board) :
    (move pick u g direction).2 = true ∧
    ∃ r c, r < g.size ∧ c < g.size ∧
      getCell (slideBoard g direction) r c = 0 ∧
      (r, c) = (emptyCells g.size (slideBoard g direction)).getD
        (pick % (emptyCells g.size (slideBoard g direction)).length) (0, 0) ∧
      (move pick u g direction).1.board =
        setCell (slideBoard g direction) r c (tileValue u) ∧
      ((u < 9 / 10 ∧ tileValue u = 2) ∨ (¬u < 9 / 10 ∧ tileValue u = 4)) := by
  have hval : (u < 9 / 10 ∧ tileValue u = 2) ∨ (¬u < 9 / 10 ∧ tileValue u = 4) := by
    by_cases hu : u < 9 / 10
    · exact Or.inl ⟨hu, by unfold tileValue; rw [if_pos hu]⟩
    · exact Or.inr ⟨hu, by unfold tileValue; rw [if_neg hu]⟩
  rcases hdir with rfl | rfl | rfl | rfl
  · rw [move_effective_left pick u g hgo hwon heff]
    obtain ⟨r, c, hr, hc, h0, hpos, hb⟩ := spawn_spec pick u
      { g with
        board := leftBoard g,
        score := g.score + (g.board.map rowScoreLeft).sum, moved := true }
      (slide_empty_left g hwf heff)
    exact ⟨rfl, r, c, hr, hc, h0, hpos, hb, hval⟩
  · rw [move_effective_right pick u g hgo hwon heff]
    obtain ⟨r, c, hr, hc, h0, hpos, hb⟩ := spawn_spec pick u
      { g with
        board := rightBoard g,
        score := g.score + (g.board.map rowScoreRight).sum, moved := true }
      (slide_empty_right g hwf heff)
    exact ⟨rfl, r, c, hr, hc, h0, hpos, hb, hval⟩
  · have hmc : cellChanged g.size (upBoard g) g.board = true :=
      cellChanged_of_ne g.size (upBoard g) g.board (upBoard_wellFormed g) hwf heff
    rw [move_effective_up pick u g hgo hwon hmc]
    obtain ⟨r, c, hr, hc, h0, hpos, hb⟩ := spawn_spec pick u
      { g with
        board := upBoard g,
        score := g.score + ((List.range g.size).map
          (fun c => rowScoreLeft (getColumn g.size g.board c))).sum,
        moved := true }
      (slide_empty_up g hwf heff)
    exact ⟨rfl, r, c, hr, hc, h0, hpos, hb, hval⟩
  · have hmc : cellChanged g.size (downBoard g) g.board = true :=
      cellChanged_of_ne g.size (downBoard g) g.board (downBoard_wellFormed g) hwf heff
    rw [move_effective_down pick u g hgo hwon hmc]
    obtain ⟨r, c, hr, hc, h0, hpos, hb⟩ := spawn_spec pick u
      { g with
        board := downBoard g,
        score := g.score + ((List.range g.size).map
          (fun c => rowScoreRight (getColumn g.size g.board c))).sum,
        moved := true }
      (slide_empty_down g hwf heff)
    exact ⟨rfl, r, c, hr, hc, h0, hpos, hb, hval⟩

/-- C4 witness: a left move on `sampleGame` is effective and spawns. -/
theorem effective_move_spawns_one_tile_witness :
    (move 0 0 sampleGame "left").2 = true ∧
    ∃ r c, r < sampleGame.size ∧ c < sampleGame.size ∧
      getCell (slideBoard sampleGame "left") r c = 0 ∧
      (r, c) = (emptyCells sampleGame.size (slideBoard sampleGame "left")).getD
        (0 % (emptyCells sampleGame.size (slideBoard sampleGame "left")).length) (0, 0) ∧
      (move 0 0 sampleGame "left").1.board =
        setCell (slideBoard sampleGame "left") r c (tileValue 0) ∧
      (((0 : ℚ) < 9 / 10 ∧ tileValue 0 = 2) ∨ (¬(0 : ℚ) < 9 / 10 ∧ tileValue 0 = 4)) :=
  effective_move_spawns_one_tile 0 0 sampleGame "left" ⟨by decide, by decide⟩ rfl rfl
    (Or.inl rfl) (by decide)

theorem validCellB_iff (v : Nat) :
    validCellB v = true ↔ v = 0 ∨ ∃ k, 1 ≤ k ∧ v = 2 ^ k := by
  unfold validCellB
  simp only [Bool.or_eq_true, beq_iff_eq, List.any_eq_true, List.mem_range,
    Bool.and_eq_true, decide_eq_true_eq]
  constructor
  · rintro (rfl | ⟨k, _, hk0, hv⟩)
    · exact Or.inl rfl
    · exact Or.inr ⟨k, by omega, hv⟩
  · rintro (rfl | ⟨k, hk1, rfl⟩)
    · exact Or.inl rfl
    · refine Or.inr ⟨k, ?_, by omega, rfl⟩
      have := Nat.lt_two_pow k
      omega

theorem validCellB_double (a : Nat) (h : validCellB a = true) :
    validCellB (a * 2) = true := by
  rcases (validCellB_iff a).mp h with rfl | ⟨k, hk, rfl⟩
  · decide
  · refine (validCellB_iff _).mpr (Or.inr ⟨k + 1, by omega, ?_⟩)
    rw [pow_succ]

theorem tileValue_valid (u : ℚ) : validCellB (tileValue u) = true := by
  unfold tileValue
  by_cases h : u < 9 / 10
  · rw [if_pos h]
    decide
  · rw [if_neg h]
    decide

theorem validB_iff (b : List (List Nat)) :
    ValidB b = true ↔ ∀ row ∈ b, ∀ v ∈ row, validCellB v = true := by
  simp [ValidB, List.all_eq_true]

theorem validB_getCell (b : List (List Nat)) (h : ValidB b = true) (r c : Nat) :
    validCellB (getCell b r c) = true := by
  unfold getCell
  by_cases hr : r < b.length
  · rw [List.getD_eq_getElem _ _ hr]
    by_cases hc : c < b[r].length
    · rw [List.getD_eq_getElem _ _ hc]
      exact (validB_iff b).mp h _ (List.getElem_mem hr) _ (List.getElem_mem hc)
    · rw [List.getD_eq_default _ _ (by omega)]
      decide
  · rw [List.getD_eq_default b [] (by omega)]
    rfl

theorem slideRowLeft_valid (size : Nat) (row : List Nat)
    (hrow : ∀ v ∈ row, validCellB v = true) :
    ∀ v ∈ slideRowLeft size row, validCellB v = true := by
  intro v hv
  unfold slideRowLeft at hv
  rcases List.mem_append.mp hv with hv | hv
  · rcases mergeTiles_mem _ v hv with hmem | ⟨a, ha, rfl⟩
    · exact hrow v (List.mem_of_mem_filter hmem)
    · exact validCellB_double a (hrow a (List.mem_of_mem_filter ha))
  · rw [List.eq_of_mem_replicate hv]
    decide

theorem slideRowRight_valid (size : Nat) (row : List Nat)
    (hrow : ∀ v ∈ row, validCellB v = true) :
    ∀ v ∈ slideRowRight size row, validCellB v = true := by
  intro v hv
  rw [slideRowRight_eq_reverse, List.mem_reverse] at hv
  exact slideRowLeft_valid size row.reverse
    (fun x hx => hrow x (List.mem_reverse.mp hx)) v hv

theorem leftBoard_valid (g : Game) (h : ValidB g.board = true) :
    ValidB (leftBoard g) = true := by
  rw [validB_iff]
  intro row hrow v hv
  rcases List.mem_map.mp hrow with ⟨orig, horig, rfl⟩
  exact slideRowLeft_valid g.size orig ((validB_iff _).mp h orig horig) v hv

theorem rightBoard_valid (g : Game) (h : ValidB g.board = true) :
    ValidB (rightBoard g) = true := by
  rw [validB_iff]
  intro row hrow v hv
  rcases List.mem_map.mp hrow with ⟨orig, horig, rfl⟩
  exact slideRowRight_valid g.size orig ((validB_iff _).mp h orig horig) v hv

theorem getColumn_valid (g : Game) (h : ValidB g.board = true) (c : Nat) :
    ∀ v ∈ getColumn g.size g.board c, validCellB v = true := by
  intro v hv
  unfold getColumn at hv
  rcases List.mem_map.mp hv with ⟨r, _, rfl⟩
  exact validB_getCell g.board h r c

theorem upBoard_valid (g : Game) (h : ValidB g.board = true) :
    ValidB (upBoard g) = true := by
  rw [validB_iff]
  intro row hrow v hv
  rcases List.mem_map.mp hrow with ⟨r, _, rfl⟩
  rcases List.mem_map.mp hv with ⟨c, _, rfl⟩
  by_cases hr : r < (slideRowLeft g.size (getColumn g.size g.board c)).length
  · rw [List.getD_eq_getElem _ _ hr]
    exact slideRowLeft_valid g.size _ (getColumn_valid g h c) _ (List.getElem_mem hr)
  · rw [List.getD_eq_default _ _ (by omega)]
    decide

theorem downBoard_valid (g : Game) (h : ValidB g.board = true) :
    ValidB (downBoard g) = true := by
  rw [validB_iff]
  intro row hrow v hv
  rcases List.mem_map.mp hrow with ⟨r, _, rfl⟩
  rcases List.mem_map.mp hv with ⟨c, _, rfl⟩
  by_cases hr : r < (slideRowRight g.size (getColumn g.size g.board c)).length
  · rw [List.getD_eq_getElem _ _ hr]
    exact slideRowRight_valid g.size _ (getColumn_valid g h c) _ (List.getElem_mem hr)
  · rw [List.getD_eq_default _ _ (by omega)]
    decide

theorem setCell_valid (b : List (List Nat)) (r c v : Nat)
    (h : ValidB b = true) (hv : validCellB v = true) :
    ValidB (setCell b r c v) = true := by
  rw [validB_iff]
  intro row hrow x hx
  rcases List.mem_or_eq_of_mem_set hrow with hmem | rfl
  · exact (validB_iff b).mp h row hmem x hx
  · rcases List.mem_or_eq_of_mem_set hx with hmem | rfl
    · by_cases hr : r < b.length
      · exact (validB_iff b).mp h _
          (by rw [List.getD_eq_getElem _ _ hr]; exact List.getElem_mem hr) x hmem
      · rw [List.getD_eq_default _ _ (by omega)] at hmem
        cases hmem
    · exact hv

theorem addRandomTile_valid (pick : Nat) (u : ℚ) (g : Game)
    (h : ValidB g.board = true) :
    ValidB (addRandomTile pick u g).board = true := by
  unfold addRandomTile
  by_cases he : (emptyCells g.size g.board).isEmpty
  · simpa [he] using h
  · simp only [he, Bool.false_eq_true, if_false]
    exact setCell_valid _ _ _ _ h (tileValue_valid u)

theorem dispatch_board_valid (g0 : Game) (direction : String)
    (h : ValidB g0.board = true) :
    ValidB (dispatchMove g0 direction).1.board = true := by
  unfold dispatchMove
  by_cases h1 : direction = "left"
  · rw [if_pos h1]
    exact leftBoard_valid g0 h
  rw [if_neg h1]
  by_cases h2 : direction = "right"
  · rw [if_pos h2]
    exact rightBoard_valid g0 h
  rw [if_neg h2]
  by_cases h3 : direction = "up"
  · rw [if_pos h3]
    exact upBoard_valid g0 h
  rw [if_neg h3]
  by_cases h4 : direction = "down"
  · rw [if_pos h4]
    exact downBoard_valid g0 h
  rw [if_neg h4]
  exact h

theorem move_valid (pick : Nat) (u : ℚ) (g : Game) (direction : String)
    (h : ValidB g.board = true) :
    ValidB (move pick u g direction).1.board = true := by
  by_cases hgo : g.game_over = true
  · unfold move
    rw [if_pos (by simp [hgo])]
    exact h
  by_cases hwon : g.won = true
  · unfold move
    rw [if_pos (by simp [hwon])]
    exact h
  rw [move_not_terminal pick u g direction (by simpa using hgo) (by simpa using hwon)]
  by_cases hm : (dispatchMove { g with moved := false } direction).2 = true
  · rw [if_pos hm]
    show ValidB (checkGameState (addRandomTile pick u _)).board = true
    rw [checkGameState_board]
    exact addRandomTile_valid pick u _
      (dispatch_board_valid { g with moved := false } direction h)
  · rw [if_neg hm]
    exact dispatch_board_valid { g with moved := false } direction h

theorem blank_valid (size : Nat) : ValidB (blankBoard size) = true := by
  rw [validB_iff]
  intro row hrow v hv
  rw [List.eq_of_mem_replicate hrow] at hv
  rw [List.eq_of_mem_replicate hv]
  decide

/-- C10: every cell always holds 0 or a power of two at least 2 —
`validCellB` is exactly that predicate, the invariant holds right after
construction and after `reset()`, and it is preserved by every `move()`
call in every direction (including unrecognized ones). -/
theorem cells_are_powers_of_two :
    (∀ v, validCellB v = true ↔ v = 0 ∨ ∃ k, 1 ≤ k ∧ v = 2 ^ k) ∧
    (∀ size p1 p2 : Nat, ∀ u1 u2 : ℚ,
      ValidB (initGame size p1 u1 p2 u2).board = true) ∧
    (∀ p1 p2 : Nat, ∀ u1 u2 : ℚ, ∀ g : Game,
      ValidB (resetGame p1 u1 p2 u2 g).board = true) ∧
    (∀ (pick : Nat) (u : ℚ) (g : Game) (direction : String),
      ValidB g.board = true → ValidB (move pick u g direction).1.board = true) := by
  refine ⟨validCellB_iff, ?_, ?_, move_valid⟩
  · intro size p1 p2 u1 u2
    exact addRandomTile_valid p2 u2 _ (addRandomTile_valid p1 u1 _ (blank_valid size))
  · intro p1 p2 u1 u2 g
    exact addRandomTile_valid p2 u2 _ (addRandomTile_valid p1 u1 _ (blank_valid g.size))

/-- C10 witness: the invariant evaluated on `sampleGame` and preserved
through a concrete left move. -/
theorem cells_are_powers_of_two_witness :
    ValidB sampleGame.board = true ∧
    ValidB (move 0 0 sampleGame "left").1.board = true :=
  ⟨by decide, cells_are_powers_of_two.2.2.2 0 0 sampleGame "left" (by decide)⟩

theorem readBoard_append (heap ext : List (List Nat)) (refs : List Nat)
    (hvalid : ∀ i ∈ refs, i < heap.length) :
    readBoard (heap ++ ext) refs = readBoard heap refs := by
  unfold readBoard
  refine List.map_congr_left ?_
  intro i hi
  unfold derefRow
  rw [List.getD_append _ _ _ _ (hvalid i hi)]

theorem readBoard_set_other (heap : List (List Nat)) (refs : List Nat)
    (j : Nat) (hne : ∀ i ∈ refs, i ≠ j) (x : List Nat) :
    readBoard (heap.set j x) refs = readBoard heap refs := by
  unfold readBoard
  refine List.map_congr_left ?_
  intro i hi
  unfold derefRow
  have h : j ≠ i := fun hji => (hne i hi) hji.symm
  simp [List.getD_eq_getElem?_getD, List.getElem?_set_ne h]

/-- C8: `get_board()` returns a matrix equal in contents to the
internal grid but fully independent of it: the copy reads back equal to
the internal board, and after ANY caller-side mutation of the returned
matrix (any row, column, value), reading the internal board — hence
every subsequent accessor call — yields exactly what it did before. -/
theorem get_board_defensive_copy (heap : List (List Nat)) (refs : List Nat)
    (hvalid : ∀ i ∈ refs, i < heap.length) (r c v : Nat) :
    readBoard (getBoardCopy heap refs).1 (getBoardCopy heap refs).2 =
      readBoard heap refs ∧
    readBoard (mutateRef (getBoardCopy heap refs).1 (getBoardCopy heap refs).2 r c v)
      refs = readBoard heap refs := by
  constructor
  · show readBoard (heap ++ readBoard heap refs)
      (List.range' heap.length refs.length 1) = readBoard heap refs
    unfold readBoard
    rw [List.range'_eq_map_range, List.map_map]
    calc (List.range refs.length).map
          ((derefRow (heap ++ refs.map (derefRow heap))) ∘ (heap.length + ·))
        = (List.range refs.length).map
            (fun j => (refs.map (derefRow heap)).getD j []) := by
          refine List.map_congr_left ?_
          intro j hj
          show derefRow (heap ++ refs.map (derefRow heap)) (heap.length + j) =
            (refs.map (derefRow heap)).getD j []
          unfold derefRow
          rw [List.getD_append_right]
          · congr 1
            omega
          · omega
      _ = refs.map (derefRow heap) := map_range_getD _ _ _ (by simp)
  · show readBoard (mutateRef (heap ++ readBoard heap refs)
      (List.range' heap.length refs.length 1) r c v) refs = readBoard heap refs
    unfold mutateRef
    by_cases hr : r < refs.length
    · have hsome : (List.range' heap.length refs.length 1)[r]? =
          some (heap.length + r) := by
        rw [List.getElem?_eq_getElem (by simpa using hr)]
        simp [List.getElem_range']
      rw [hsome]
      have hv2 : ∀ i ∈ refs, i < (heap ++ readBoard heap refs).length := by
        intro i hi
        have := hvalid i hi
        simp only [List.length_append]
        omega
      rw [readBoard_set_other (heap ++ readBoard heap refs) refs
        (heap.length + r) (fun i hi => by have := hvalid i hi; omega) _]
      exact readBoard_append heap _ refs hvalid
    · have hnone : (List.range' heap.length refs.length 1)[r]? = none := by
        rw [List.getElem?_eq_none]
        simpa using hr
      rw [hnone]
      exact readBoard_append heap _ refs hvalid

/-- C8 witness: a two-row heap, both rows referenced; copying then
smashing cell (0, 0) of the copy leaves the internal reads intact. -/
theorem get_board_defensive_copy_witness :
    readBoard (getBoardCopy [[2, 4], [8, 16]] [0, 1]).1
      (getBoardCopy [[2, 4], [8, 16]] [0, 1]).2 =
      readBoard [[2, 4], [8, 16]] [0, 1] ∧
    readBoard (mutateRef (getBoardCopy [[2, 4], [8, 16]] [0, 1]).1
      (getBoardCopy [[2, 4], [8, 16]] [0, 1]).2 0 0 999) [0, 1] =
      readBoard [[2, 4], [8, 16]] [0, 1] :=
  get_board_defensive_copy [[2, 4], [8, 16]] [0, 1] (by decide) 0 0 999

end Game2048
